import Mathlib

/-!
# Verification of the C-PAC workflow trimmer (`CPAC/utils/trimmer.py`)

Shallow embedding of the workflow-graph pruning engine.  The Python module
operates on a networkx execution graph produced by nipype; here the graph is an
explicit list-backed structure, Python dicts become association lists, and
fallible storage access becomes `Except`.  External collaborators (nipype's
graph expansion, `glob`, the boto bucket from `indi_aws.fetch_creds`, and the
`_substitute` method of the DataSink interface) are parameters of the model.
-/

namespace Trimmer

/-- Role tag of a graph node.  In the source a sink is a `Node` whose interface
is a `DataSink`; passthrough nodes are the stand-in input nodes created by
`create_check_for_s3_node`; every other node is a compute node. -/
inductive Role where
  | compute
  | sink
  | passthrough
deriving DecidableEq, Repr

/-- A graph node.  `baseDirectory`, `container`, `parameterization` and
`substitutions` model the DataSink attributes read by `the_trimmer`
(`interface.inputs.base_directory`, `interface.inputs.container`,
`parameterization`, and the substitution table applied by
`interface._substitute`).  `filePath` and `credsPath` are carried by
passthrough nodes (the stand-in reads the cached file). -/
structure Node where
  id : Nat
  name : String
  role : Role
  baseDirectory : String := ""
  container : String := ""
  parameterization : List String := []
  substitutions : List (String × String) := []
  filePath : String := ""
  credsPath : Option String := none
deriving DecidableEq, Repr

/-- A directed edge with its `connect` data: a list of
`(source_field, dest_field)` pairs; on edges into a sink the dest field is the
derivative name. -/
structure Edge where
  src : Node
  dst : Node
  connect : List (String × String)
deriving DecidableEq, Repr

/-- A directed graph (networkx `DiGraph`): node list and edge list, at most one
edge per ordered node pair. -/
structure Graph where
  nodes : List Node
  edges : List Edge
deriving DecidableEq, Repr

namespace Graph

/-- `execgraph.in_edges(n)`. -/
def in_edges (g : Graph) (n : Node) : List Edge :=
  g.edges.filter (fun e => e.dst = n)

/-- `execgraph.out_edges(n)`. -/
def out_edges (g : Graph) (n : Node) : List Edge :=
  g.edges.filter (fun e => e.src = n)

/-- `execgraph.successors(n)`: the distinct targets of `n`'s out-edges. -/
def successors (g : Graph) (n : Node) : List Node :=
  ((g.out_edges n).map (fun e => e.dst)).eraseDups

/-- `execgraph.get_edge_data(a, b)['connect']` (empty if the edge is absent;
in the source the edge always exists when this is read). -/
def get_edge_data (g : Graph) (a b : Node) : List (String × String) :=
  match g.edges.find? (fun e => e.src = a ∧ e.dst = b) with
  | some e => e.connect
  | none => []

/-- `execgraph.add_node(n)`: a no-op when the node is already present. -/
def add_node (g : Graph) (n : Node) : Graph :=
  if n ∈ g.nodes then g else { g with nodes := g.nodes ++ [n] }

/-- `execgraph.add_edge(a, b, connect=c)`: adds missing endpoints and either
updates the `connect` data of an existing `(a, b)` edge or appends a new one. -/
def add_edge (g : Graph) (a b : Node) (c : List (String × String)) : Graph :=
  let g := (g.add_node a).add_node b
  if g.edges.any (fun e => e.src = a ∧ e.dst = b) then
    let upd := fun (e : Edge) =>
      if e.src = a ∧ e.dst = b then { e with connect := c } else e
    { g with edges := g.edges.map upd }
  else
    { g with edges := g.edges ++ [⟨a, b, c⟩] }

/-- `execgraph.remove_node(n)`: drops the node and every incident edge. -/
def remove_node (g : Graph) (n : Node) : Graph :=
  { nodes := g.nodes.filter (fun m => ¬ (m = n)),
    edges := g.edges.filter (fun e => ¬ (e.src = n) ∧ ¬ (e.dst = n)) }

end Graph

/-- Python `str.startswith`, over character lists so that it evaluates inside
the kernel. -/
def charsStartWith : List Char → List Char → Bool
  | _, [] => true
  | [], _ :: _ => false
  | c :: cs, d :: ds => if c = d then charsStartWith cs ds else false

/-- Python `s.startswith(pre)`. -/
def strStartsWith (s pre : String) : Bool :=
  charsStartWith s.data pre.data

/-- Python `s[n:]`. -/
def strDrop (s : String) (n : Nat) : String :=
  ⟨s.data.drop n⟩

/-- Python `s.split('/')` on the character list. -/
def splitOnSlash : List Char → List (List Char)
  | [] => [[]]
  | c :: rest =>
      let r := splitOnSlash rest
      if c = '/' then [] :: r
      else (c :: r.headD []) :: r.tail

/-- Python `s.split('/')`. -/
def strSplitSlash (s : String) : List String :=
  (splitOnSlash s.data).map (fun l => ⟨l⟩)

/-- Python `str.replace`: replace non-overlapping occurrences left to right;
the fuel (the string length at the call site) makes the recursion structural. -/
def replaceChars (pat rep : List Char) : Nat → List Char → List Char
  | _, [] => []
  | 0, s => s
  | fuel + 1, c :: rest =>
      match pat with
      | [] => c :: replaceChars pat rep fuel rest
      | _ :: _ =>
          if charsStartWith (c :: rest) pat then
            rep ++ replaceChars pat rep fuel ((c :: rest).drop pat.length)
          else c :: replaceChars pat rep fuel rest

/-- Python `s.replace(pat, rep)`. -/
def strReplace (s pat rep : String) : String :=
  ⟨replaceChars pat.data rep.data s.data.length s.data⟩

/-- A boto S3 bucket as used by `list_files`: its string form (interpolated
into the returned URIs by `'s3://%s/%s' % (bucket, obj['Key'])`) and its
`objects.filter(Prefix=...)` listing. -/
structure Bucket where
  reprName : String
  objectsFilter : String → List String

/-- External collaborators of the storage probe: `fetch_creds.return_bucket`
(which raises on an access fault, modelled as `Except.error`) and
`glob.glob` (total; returns `[]` on no match). -/
structure Env where
  returnBucket : Option String → String → Except String Bucket
  glob : String → List String

/-- `list_files(path, s3_creds_path)`: routes `s3://` paths to the bucket
listing and everything else to a glob of the path's immediate children. -/
def list_files (env : Env) (path : String) (s3CredsPath : Option String) :
    Except String (List String) :=
  if strStartsWith path "s3://" then
    let pieces := strSplitSlash (strDrop path 5)
    let bucketName := pieces.headD ""
    let keyPath := String.intercalate "/" pieces.tail
    match env.returnBucket s3CredsPath bucketName with
    | .error e => .error e
    | .ok bucket =>
        .ok ((bucket.objectsFilter keyPath).map
          (fun key => "s3://" ++ bucket.reprName ++ "/" ++ key))
  else
    .ok (env.glob (path ++ "/*"))

/-- Modelled from the spec: the DataSink interface's `_substitute` method
(nipype, an external collaborator) applies the sink's substitution table to a
path; plain string substitutions are applied in order. -/
def applySubstitutions (subs : List (String × String)) (p : String) : String :=
  subs.foldl (fun acc s => strReplace acc s.1 s.2) p

/-- The output location computed for one field mapping of an edge into a sink
(lines 151-164): `{output_dir}/{container}/{substituted derivative path}` where
the derivative path is `/{derivative_name}/{parameterization...}` run through
the sink's substitutions with the leading slash dropped, and the caller's
`output_dir`/`container` override the sink's own attributes when present. -/
def sinkPath (ds : Node) (outputDir container : Option String)
    (derivativeName : String) : String :=
  let dsOutputDir := outputDir.getD ds.baseDirectory
  let dsContainer := container.getD ds.container
  let p := String.intercalate "/" ("" :: derivativeName :: ds.parameterization)
  let p := strDrop (applySubstitutions ds.substitutions p) 1
  String.intercalate "/" [dsOutputDir, dsContainer, p]

/-- The raw candidate replacement map `replacements`: producer node →
(output field → cached file path), as an association list. -/
abbrev Replacements := List (Node × List (String × String))

namespace Replacements

/-- `replacements.get(src, {})`. -/
def getD (r : Replacements) (n : Node) : List (String × String) :=
  match r.find? (fun p => p.1 = n) with
  | some p => p.2
  | none => []

/-- Update-or-append for the inner field dict. -/
def insertPair (l : List (String × String)) (f v : String) :
    List (String × String) :=
  if l.any (fun p => p.1 = f) then
    l.map (fun p => if p.1 = f then (f, v) else p)
  else
    l ++ [(f, v)]

/-- `replacements[src][src_field] = file` including the
`if src not in replacements: replacements[src] = {}` initialisation. -/
def insertField (r : Replacements) (n : Node) (f v : String) : Replacements :=
  if r.any (fun p => p.1 = n) then
    r.map (fun p => if p.1 = n then (p.1, insertPair p.2 f v) else p)
  else
    r ++ [(n, [(f, v)])]

/-- Whether field `f` has a candidate for producer `n`
(`src_field in replacements.get(src, {})`). -/
def hasField (r : Replacements) (n : Node) (f : String) : Bool :=
  (r.getD n).any (fun p => p.1 = f)

/-- The recorded file for `(n, f)`, if any. -/
def lookupFile (r : Replacements) (n : Node) (f : String) : Option String :=
  ((r.getD n).find? (fun p => p.1 = f)).map (fun p => p.2)

end Replacements

/-- The scan of the field mappings of one in-edge of a sink (lines 147-172):
probe the computed location and record the candidate when exactly one file is
found.  NOTE the source passes `s3_creds_path=None` to `list_files` here
(line 167, `# TODO support S3`). -/
def scanFields (env : Env) (outputDir container : Option String) (ds src : Node) :
    List (String × String) → Replacements → Except String Replacements
  | [], acc => .ok acc
  | fm :: rest, acc =>
      match list_files env (sinkPath ds outputDir container fm.2) none with
      | .error e => .error e
      | .ok files =>
          scanFields env outputDir container ds src rest
            (if files.length = 1 then acc.insertField src fm.1 (files.headD "")
             else acc)

/-- The scan of all in-edges of one sink (lines 142-172). -/
def scanEdges (env : Env) (outputDir container : Option String) (ds : Node) :
    List Edge → Replacements → Except String Replacements
  | [], acc => .ok acc
  | e :: rest, acc =>
      match scanFields env outputDir container ds e.src e.connect acc with
      | .error err => .error err
      | .ok acc => scanEdges env outputDir container ds rest acc

/-- One sink's scan: fold `scanFields` over its in-edges. -/
def scanSink (env : Env) (outputDir container : Option String) (g : Graph)
    (ds : Node) (acc : Replacements) : Except String Replacements :=
  scanEdges env outputDir container ds (g.in_edges ds) acc

/-- The sink-deletion test of lines 176-182: every in-edge of the sink has at
least one (`any`) field mapping whose producer/field pair has a candidate in
the map as it stands. -/
def sinkDeletable (g : Graph) (r : Replacements) (ds : Node) : Bool :=
  (g.in_edges ds).all (fun e =>
    e.connect.any (fun fm => r.hasField e.src fm.1))

/-- The datasink loop of lines 139-183: scan each sink in turn and, right
after its own scan, test it for deletion against the map accumulated so far. -/
def scanSinks (env : Env) (outputDir container : Option String) (g : Graph) :
    List Node → Replacements → Except String (Replacements × List Node)
  | [], acc => .ok (acc, [])
  | ds :: rest, acc =>
      match scanSink env outputDir container g ds acc with
      | .error e => .error e
      | .ok r =>
          match scanSinks env outputDir container g rest r with
          | .error e => .error e
          | .ok (rf, dels) =>
              .ok (rf, if sinkDeletable g r ds then ds :: dels else dels)

/-- The datasink nodes of the execution graph (lines 135-138). -/
def execnodes (g : Graph) : List Node :=
  g.nodes.filter (fun n => n.role = Role.sink)

/-- The per-producer validity test of lines 187-191: the producer survives iff
no out-edge carries a source field absent from its cached fields. -/
def nodeFullyCached (g : Graph) (cachedFields : List (String × String))
    (n : Node) : Bool :=
  !((g.out_edges n).any (fun e =>
    e.connect.any (fun fm => !(cachedFields.any (fun p => p.1 = fm.1)))))

/-- The validation loop of lines 186-193 under Python 3 dict-view semantics:
`for node, cached_fields in replacements.items()` iterates the live view, so
when the loop meets a producer with an uncovered outgoing field,
`del replacements[node]` fires, the inner loop breaks, and the very next step
of the view iterator raises `RuntimeError: dictionary changed size during
iteration` (CPython checks the size change even when the deleted entry was
the last one).  The loop therefore either finds every producer fully covered
and leaves the map unchanged, or raises at the first invalid producer; the
partially mutated map never escapes, as the exception propagates out of
`the_trimmer`. -/
def validateLoop (g : Graph) (r : Replacements) :
    List (Node × List (String × String)) → Except String Replacements
  | [] => .ok r
  | entry :: rest =>
      if nodeFullyCached g entry.2 entry.1 then validateLoop g r rest
      else .error "dictionary changed size during iteration"

/-- The backward pruning walk `recurse_predecessors` (lines 195-208): for each
predecessor of the cached node, skip it when any of its out-edges targets a
node other than the cached node, otherwise yield it and recurse from it.  The
source relies on the execution graph being acyclic; the fuel argument (the
node count at the call site) bounds the recursion depth, which on an acyclic
graph never reaches the bound. -/
def recurse_predecessors (g : Graph) : Nat → Node → List Node
  | 0, _ => []
  | fuel + 1, cached =>
      (g.in_edges cached).flatMap (fun e =>
        if (g.out_edges e.src).any (fun e₂ => ¬ (e₂.dst = cached)) then []
        else e.src :: recurse_predecessors g fuel e.src)

/-- State threaded through the rewrite loop of lines 219-258: the graph, the
`replacement_mapping` under construction, and the `_input_nodes` list. -/
structure RewriteState where
  g : Graph
  mapping : List (Node × List (String × Node))
  inputNodes : List Node
deriving DecidableEq, Repr

/-- Modelled from the spec: the stand-in node factory `create_check_for_s3_node`
(`CPAC.utils.datasource`, not under `src/`) produces a passthrough node named
`{producer}_{field}_input` carrying the resolved file path and the storage
credentials. -/
def mkInputNode (replacement : Node) (fromField filePath : String)
    (creds : Option String) : Node :=
  { id := 0,
    name := replacement.name ++ "_" ++ fromField ++ "_input",
    role := Role.passthrough,
    filePath := filePath,
    credsPath := creds }

/-- The mapping entry for `(replacement, fromField)`, if one was created. -/
def mappingFind (m : List (Node × List (String × Node))) (n : Node)
    (f : String) : Option Node :=
  match m.find? (fun p => p.1 = n) with
  | some p => (p.2.find? (fun q => q.1 = f)).map (fun q => q.2)
  | none => none

/-- Record a new passthrough node for `(replacement, fromField)`. -/
def mappingInsert (m : List (Node × List (String × Node))) (n : Node)
    (f : String) (v : Node) : List (Node × List (String × Node)) :=
  if m.any (fun p => p.1 = n) then
    m.map (fun p => if p.1 = n then (p.1, p.2 ++ [(f, v)]) else p)
  else
    m ++ [(n, [(f, v)])]

/-- One field mapping of one live out-edge of a replaced producer
(lines 230-256): reuse the passthrough for `(replacement, from_field)` if one
exists, otherwise create it, add it to the graph and to `_input_nodes`; in
either case wire `(passthrough, to_node)` with `connect=[('file', to_field)]`. -/
def rewireField (creds : Option String) (replacement : Node)
    (cachedFiles : List (String × String)) (toNode : Node)
    (st : RewriteState) (fm : String × String) : RewriteState :=
  match mappingFind st.mapping replacement fm.1 with
  | some pn => { st with g := st.g.add_edge pn toNode [("file", fm.2)] }
  | none =>
      let filePath :=
        ((cachedFiles.find? (fun q => q.1 = fm.1)).map (fun q => q.2)).getD ""
      let newNode := mkInputNode replacement fm.1 filePath creds
      { g := (st.g.add_node newNode).add_edge newNode toNode [("file", fm.2)],
        mapping := mappingInsert st.mapping replacement fm.1 newNode,
        inputNodes := st.inputNodes ++ [newNode] }

/-- The body of the rewrite loop for one validated replacement (lines 222-258):
if the producer still has successors, rewire every field mapping of every
successor edge (reading the edge data captured at entry, as the source reads
`execgraph.edge[replacement]`), then remove the producer from the graph. -/
def rewriteOne (creds : Option String) (st : RewriteState)
    (entry : Node × List (String × String)) : RewriteState :=
  let succs := st.g.successors entry.1
  let st' :=
    if succs.isEmpty then st
    else
      succs.foldl (fun st₂ toNode =>
        (st.g.get_edge_data entry.1 toNode).foldl
          (fun st₃ fm => rewireField creds entry.1 entry.2 toNode st₃ fm) st₂)
        st
  { st' with g := st'.g.remove_node entry.1 }

/-- The garbage collection of lines 261-264: remove every created input node
that has no successors left. -/
def gcInputNodes (g : Graph) (inputNodes : List Node) : Graph :=
  inputNodes.foldl
    (fun g n => if (g.successors n).isEmpty then g.remove_node n else g) g

/-- A nipype workflow, reduced to the attributes `the_trimmer` reads: its name
and its (already flattened and expanded) execution graph.  The deep copy of
line 129 makes the working graph a fresh value; `wf.clone` (line 266) copies
the workflow and renames it. -/
structure Workflow where
  name : String
  graph : Graph
deriving DecidableEq, Repr

/-- `the_trimmer(wf, output_dir, container, s3_creds_path)` (lines 29-269):
scan the datasinks, run the validation loop over the raw candidate map (which
under Python 3 raises `RuntimeError` as soon as it meets a producer with an
uncovered outgoing field), walk predecessors of every surviving producer,
delete the collected nodes, rewrite each surviving producer into passthrough
input nodes, garbage-collect dead input nodes, and return the renamed clone
carrying the pruned graph together with `(replacement_mapping, deletions)`. -/
def the_trimmer (env : Env) (wf : Workflow)
    (outputDir container s3CredsPath : Option String) :
    Except String (Workflow ×
      (List (Node × List (String × Node)) × List Node)) :=
  let execgraph := wf.graph
  match scanSinks env outputDir container execgraph (execnodes execgraph) [] with
  | .error e => .error e
  | .ok (replacements₀, deletions₀) =>
      match validateLoop execgraph replacements₀ replacements₀ with
      | .error e => .error e
      | .ok replacements =>
          let deletions := deletions₀ ++ replacements.flatMap (fun entry =>
            recurse_predecessors execgraph execgraph.nodes.length entry.1)
          let execgraph := deletions.foldl Graph.remove_node execgraph
          let st := replacements.foldl (rewriteOne s3CredsPath)
            ⟨execgraph, [], []⟩
          let execgraph := gcInputNodes st.g st.inputNodes
          let wfNew : Workflow :=
            { name := wf.name ++ "_trimmed", graph := execgraph }
          .ok (wfNew, (st.mapping, deletions))

/-- `the_trimmer` together with the post-state of the caller's workflow
object: the source reads `wf` only through `wf._create_flat_graph()` (which
flattens an internal deep copy), `deepcopy`, `wf.clone` and `wf.name`, so the
caller's object passes through the run unchanged. -/
def the_trimmerTracked (env : Env) (wf : Workflow)
    (outputDir container s3CredsPath : Option String) :
    Workflow × Except String (Workflow ×
      (List (Node × List (String × Node)) × List Node)) :=
  (wf, the_trimmer env wf outputDir container s3CredsPath)

/-! ## Concrete instances

Small graphs and storage environments used to exercise the model: the chain
scenario of the spec, counterexample graphs, and storage backends returning a
fixed listing. -/

/-- Chain scenario, node `A`. -/
def nA : Node := { id := 1, name := "A", role := .compute }

/-- Chain scenario, node `B`. -/
def nB : Node := { id := 2, name := "B", role := .compute }

/-- Chain scenario, node `C` (the producer feeding the sink). -/
def nC : Node := { id := 3, name := "C", role := .compute }

/-- Chain scenario, the datasink. -/
def nS : Node :=
  { id := 4, name := "S", role := .sink, baseDirectory := "/out",
    container := "sub" }

/-- The chain graph `A -> B -> C -> Sink` of spec scenario 1. -/
def gChain : Graph :=
  { nodes := [nA, nB, nC, nS],
    edges := [⟨nA, nB, [("oa", "ib")]⟩, ⟨nB, nC, [("ob", "ic")]⟩,
              ⟨nC, nS, [("oc", "deriv")]⟩] }

/-- The chain workflow. -/
def wfChain : Workflow := { name := "wf", graph := gChain }

/-- A storage environment in which every local location holds exactly one
file. -/
def envOne : Env :=
  { returnBucket := fun _ _ => .error "no s3",
    glob := fun _ => ["file.txt"] }

/-- A storage environment in which every local location is empty. -/
def envNone : Env :=
  { returnBucket := fun _ _ => .error "no s3",
    glob := fun _ => [] }

/-- Producer with two output fields feeding one sink (one field cached). -/
def nP2 : Node := { id := 20, name := "P", role := .compute }

/-- The sink fed on two field mappings by `nP2`. -/
def nS2 : Node :=
  { id := 21, name := "S", role := .sink, baseDirectory := "/out",
    container := "sub" }

/-- Graph with a single edge `P -> S` carrying two field mappings. -/
def gTwoFields : Graph :=
  { nodes := [nP2, nS2],
    edges := [⟨nP2, nS2, [("f1", "d1"), ("f2", "d2")]⟩] }

/-- Two-field workflow. -/
def wfTwoFields : Workflow := { name := "wf", graph := gTwoFields }

/-- Storage holding exactly one file at the `d1` derivative location and
nothing anywhere else. -/
def envD1 : Env :=
  { returnBucket := fun _ _ => .error "no s3",
    glob := fun p => if p = "/out/sub/d1/*" then ["one.txt"] else [] }

/-- The raw candidate map produced by scanning `gTwoFields` under `envD1`. -/
def rawTwoFields : Replacements := [(nP2, [("f1", "one.txt")])]

/-- Fan-out node `p` feeding both `q1` and `q2`. -/
def nP3 : Node := { id := 10, name := "p", role := .compute }

/-- Intermediate node `q1` feeding only `c3`. -/
def nQ1 : Node := { id := 11, name := "q1", role := .compute }

/-- Intermediate node `q2` feeding only `c3`. -/
def nQ2 : Node := { id := 12, name := "q2", role := .compute }

/-- Producer `c3` feeding the sink of the fan-out graph. -/
def nC3 : Node := { id := 13, name := "c", role := .compute }

/-- Sink of the fan-out graph. -/
def nS3 : Node :=
  { id := 14, name := "S", role := .sink, baseDirectory := "/out",
    container := "sub" }

/-- Graph `p -> q1 -> c3 -> S`, `p -> q2 -> c3`: both of `p`'s consumers are
pruned by the walk, yet `p` has no single common target. -/
def gFanOut : Graph :=
  { nodes := [nP3, nQ1, nQ2, nC3, nS3],
    edges := [⟨nP3, nQ1, [("x", "i1")]⟩, ⟨nP3, nQ2, [("x", "i2")]⟩,
              ⟨nQ1, nC3, [("y", "j1")]⟩, ⟨nQ2, nC3, [("y", "j2")]⟩,
              ⟨nC3, nS3, [("o", "deriv")]⟩] }

/-- Fan-out workflow. -/
def wfFanOut : Workflow := { name := "wf", graph := gFanOut }

/-- A datasink with no incoming edges. -/
def nS4 : Node :=
  { id := 30, name := "S", role := .sink, baseDirectory := "/out",
    container := "sub" }

/-- Graph holding only the edge-less sink. -/
def gLoneSink : Graph := { nodes := [nS4], edges := [] }

/-- Lone-sink workflow. -/
def wfLoneSink : Workflow := { name := "wf", graph := gLoneSink }

/-- Compute node feeding the no-op graph's sink. -/
def nA5 : Node := { id := 40, name := "A", role := .compute }

/-- Sink of the no-op graph. -/
def nS5 : Node :=
  { id := 41, name := "S", role := .sink, baseDirectory := "/out",
    container := "sub" }

/-- Graph `A -> S` used to witness the no-op property. -/
def gNoop : Graph :=
  { nodes := [nA5, nS5], edges := [⟨nA5, nS5, [("oa", "deriv")]⟩] }

/-- No-op workflow. -/
def wfNoop : Workflow := { name := "w", graph := gNoop }

/-- Producer feeding the S3-backed sink. -/
def nP6 : Node := { id := 50, name := "P", role := .compute }

/-- A datasink whose base directory is an S3 location. -/
def nS6 : Node :=
  { id := 51, name := "S", role := .sink, baseDirectory := "s3://bucket/out",
    container := "sub" }

/-- Graph `P -> S` with the S3-backed sink. -/
def gS3 : Graph :=
  { nodes := [nP6, nS6], edges := [⟨nP6, nS6, [("o", "deriv")]⟩] }

/-- S3 workflow. -/
def wfS3 : Workflow := { name := "wf", graph := gS3 }

/-- An object-storage backend that serves the bucket only to the caller's
credentials file and faults for anonymous access. -/
def envS3 : Env :=
  { returnBucket := fun creds _ =>
      if creds = some "/creds.csv" then
        .ok { reprName := "bucket", objectsFilter := fun _ => ["key.txt"] }
      else .error "Unable to locate credentials",
    glob := fun _ => [] }

/-- Validation-order instances: producer with its only field cached. -/
def nV1 : Node := { id := 60, name := "V1", role := .compute }

/-- Validation-order instances: producer with an uncovered outgoing field. -/
def nV2 : Node := { id := 61, name := "V2", role := .compute }

/-- Consumer of `nV2`'s uncovered field. -/
def nV3 : Node := { id := 62, name := "V3", role := .compute }

/-- Graph for the validation witness: `V1 -> V3` on field `f`, `V2 -> V3` on
fields `g` and `h`. -/
def gValidate : Graph :=
  { nodes := [nV1, nV2, nV3],
    edges := [⟨nV1, nV3, [("f", "i")]⟩, ⟨nV2, nV3, [("g", "j"), ("h", "k")]⟩] }

/-- A raw map in which `V1` is fully covered and `V2` is missing field `h`. -/
def rawValidate : Replacements :=
  [(nV1, [("f", "x.txt")]), (nV2, [("g", "y.txt")])]

/-! ## The validation loop crashes on any invalid producer (C1) -/

/-- The validation iteration raises exactly when some entry of the live map
has an uncovered outgoing field mapping; otherwise it completes and leaves
the map unchanged. -/
lemma validateLoop_error_iff (g : Graph) (r : Replacements)
    (s : List (Node × List (String × String))) :
    (∃ e, validateLoop g r s = .error e) ↔
      ∃ entry ∈ s, nodeFullyCached g entry.2 entry.1 = false := by
  induction s with
  | nil => simp [validateLoop]
  | cons entry rest ih =>
      rw [validateLoop]
      by_cases hv : nodeFullyCached g entry.2 entry.1 = true
      · rw [if_pos hv]
        rw [ih]
        constructor
        · rintro ⟨q, hq, hqv⟩
          exact ⟨q, List.mem_cons_of_mem entry hq, hqv⟩
        · rintro ⟨q, hq, hqv⟩
          rcases List.mem_cons.mp hq with rfl | hq'
          · rw [hv] at hqv
            cases hqv
          · exact ⟨q, hq', hqv⟩
      · rw [if_neg hv]
        constructor
        · intro _
          exact ⟨entry, List.mem_cons_self entry rest,
            Bool.eq_false_iff.mpr hv⟩
        · intro _
          exact ⟨"dictionary changed size during iteration", rfl⟩

/-- Claim C1 fails on the code: under Python 3 the `del replacements[node]`
at line 192 mutates the dict while its `.items()` view is being iterated, so
the very next step of the loop raises `RuntimeError` — the validation never
completes whenever any producer has an uncovered outgoing field, which is
exactly the situation the claim describes.  On the two-producer map the
crash fires (`V2` is missing field `h`) where the claimed single-pass filter
would have kept `V1`; on the two-field sink graph the entire run aborts with
the `RuntimeError` instead of returning a pruned workflow. -/
theorem C1_validation_crashes :
    validateLoop gValidate rawValidate rawValidate =
      .error "dictionary changed size during iteration" ∧
    rawValidate.filter (fun p => nodeFullyCached gValidate p.2 p.1) =
      [(nV1, [("f", "x.txt")])] ∧
    the_trimmer envD1 wfTwoFields none none none =
      .error "dictionary changed size during iteration" :=
  ⟨by rfl, by rfl, by rfl⟩

/-! ## Sink deletion is decided mid-scan against the raw map (C2) -/

lemma scanSinks_nil (env : Env) (od c : Option String) (g : Graph)
    (acc : Replacements) : scanSinks env od c g [] acc = .ok (acc, []) := rfl

lemma scanSinks_cons (env : Env) (od c : Option String) (g : Graph)
    (s : Node) (rest : List Node) (acc : Replacements) :
    scanSinks env od c g (s :: rest) acc =
      match scanSink env od c g s acc with
      | .error e => .error e
      | .ok r =>
          match scanSinks env od c g rest r with
          | .error e => .error e
          | .ok (rf, dels) =>
              .ok (rf, if sinkDeletable g r s then s :: dels else dels) := rfl

/-- Claim C2, amended: a sink `ds` lands in the deletion list of the scan exactly
when, at `ds`'s own position in the processing order — i.e. against the raw
candidate map accumulated through the earlier sinks' scans plus `ds`'s own
scan, before any validation — every incoming edge of `ds` has at least one
field mapping with a recorded candidate (`sinkDeletable`). -/
theorem C2_sink_deletion_mid_scan (env : Env) (od c : Option String)
    (g : Graph) (sinks : List Node) (r₀ rf : Replacements) (dels : List Node)
    (ds : Node) (h : scanSinks env od c g sinks r₀ = .ok (rf, dels)) :
    ds ∈ dels ↔ ∃ l₁ l₂ r₁ dels₁ r₂, sinks = l₁ ++ ds :: l₂ ∧
      scanSinks env od c g l₁ r₀ = .ok (r₁, dels₁) ∧
      scanSink env od c g ds r₁ = .ok r₂ ∧
      sinkDeletable g r₂ ds = true := by
  induction sinks generalizing r₀ rf dels with
  | nil =>
      rw [scanSinks_nil] at h
      injection h with h'
      injection h' with h₁ h₂
      subst h₂
      simp only [List.not_mem_nil, false_iff]
      rintro ⟨l₁, l₂, r₁, d₁, r₂, hsp, -⟩
      exact absurd hsp.symm (List.append_ne_nil_of_right_ne_nil l₁ (by simp))
  | cons s rest ih =>
      rw [scanSinks_cons] at h
      cases h1 : scanSink env od c g s r₀ with
      | error e => rw [h1] at h; exact absurd h (by simp)
      | ok r' =>
          rw [h1] at h
          dsimp only [] at h
          cases h2 : scanSinks env od c g rest r' with
          | error e =>
              rw [h2] at h
              exact absurd h (by simp)
          | ok pr =>
              obtain ⟨rf', dels'⟩ := pr
              rw [h2] at h
              dsimp only [] at h
              injection h with h'
              injection h' with h₃ h₄
              constructor
              · intro hmem
                rw [← h₄] at hmem
                have hsplit : ds = s ∧ sinkDeletable g r' s = true ∨ ds ∈ dels' := by
                  by_cases hdel : sinkDeletable g r' s = true
                  · rw [if_pos hdel] at hmem
                    rcases List.mem_cons.mp hmem with heq | hm
                    · exact Or.inl ⟨heq, hdel⟩
                    · exact Or.inr hm
                  · rw [if_neg hdel] at hmem
                    exact Or.inr hmem
                rcases hsplit with ⟨heq, hdel⟩ | hm
                · subst heq
                  exact ⟨[], rest, r₀, [], r', rfl, scanSinks_nil env od c g r₀,
                    h1, hdel⟩
                · obtain ⟨l₁, l₂, r₁, d₁, r₂, hsp, hpre, hsc, hdl⟩ :=
                    (ih r' rf' dels' h2).mp hm
                  refine ⟨s :: l₁, l₂, r₁,
                    if sinkDeletable g r' s then s :: d₁ else d₁, r₂,
                    by rw [hsp, List.cons_append], ?_, hsc, hdl⟩
                  rw [scanSinks_cons, h1]
                  dsimp only []
                  rw [hpre]
              · rintro ⟨l₁, l₂, r₁, d₁, r₂, hsp, hpre, hsc, hdl⟩
                cases l₁ with
                | nil =>
                    injection hsp with he₁ he₂
                    subst he₁
                    rw [scanSinks_nil] at hpre
                    injection hpre with hp
                    injection hp with hp₁ hp₂
                    subst hp₁
                    rw [h1] at hsc
                    injection hsc with hr
                    subst hr
                    rw [← h₄, if_pos hdl]
                    exact List.mem_cons_self _ _
                | cons s' l₁' =>
                    injection hsp with he₁ he₂
                    subst he₁
                    rw [scanSinks_cons, h1] at hpre
                    dsimp only [] at hpre
                    cases h3 : scanSinks env od c g l₁' r' with
                    | error e =>
                        rw [h3] at hpre
                        exact absurd hpre (by simp)
                    | ok pq =>
                        obtain ⟨rq, dq⟩ := pq
                        rw [h3] at hpre
                        dsimp only [] at hpre
                        injection hpre with hp
                        injection hp with hp₁ hp₂
                        subst hp₁
                        have hm : ds ∈ dels' :=
                          (ih r' rf' dels' h2).mpr
                            ⟨l₁', l₂, rq, dq, r₂, he₂, h3, hsc, hdl⟩
                        rw [← h₄]
                        by_cases hdel : sinkDeletable g r' s = true
                        · rw [if_pos hdel]
                          exact List.mem_cons_of_mem s hm
                        · rw [if_neg hdel]
                          exact hm

/-- Counterexample to C2 as stated: under `envD1` the sink `nS2` is added to
the deletion list during the scan although the field mapping `(f2, d2)` on
its only incoming edge has no candidate — not in the raw map, and a validated
map never even exists, because the validation loop crashes on the invalid
producer `nP2` and the run aborts.  So the deletion decision is not the
claimed iff against the validated map. -/
theorem C2_counterexample :
    scanSinks envD1 none none gTwoFields (execnodes gTwoFields) [] =
      .ok (rawTwoFields, [nS2]) ∧
    Replacements.hasField rawTwoFields nP2 "f2" = false ∧
    validateLoop gTwoFields rawTwoFields rawTwoFields =
      .error "dictionary changed size during iteration" ∧
    the_trimmer envD1 wfTwoFields none none none =
      .error "dictionary changed size during iteration" :=
  ⟨by rfl, by decide, by rfl, by rfl⟩

/-- Witness for C2 (amended): the two-field sink is deleted, by the
characterization applied at its position in the scan. -/
theorem C2_sink_deletion_mid_scan_witness : nS2 ∈ [nS2] :=
  (C2_sink_deletion_mid_scan envD1 none none gTwoFields
    (execnodes gTwoFields) [] rawTwoFields [nS2] nS2 rfl).mpr
    ⟨[], [], [], [], rawTwoFields, rfl, rfl, rfl, rfl⟩

/-! ## The backward pruning walk (C3) -/

lemma recurse_sound (g : Graph) :
    ∀ fuel c p, p ∈ recurse_predecessors g fuel c →
      ∃ d, ∀ e₂ ∈ g.out_edges p, e₂.dst = d := by
  intro fuel
  induction fuel with
  | zero =>
      intro c p hp
      simp [recurse_predecessors] at hp
  | succ n ih =>
      intro c p hp
      rw [recurse_predecessors] at hp
      rw [List.mem_flatMap] at hp
      obtain ⟨e, he, hpe⟩ := hp
      by_cases hany :
          (g.out_edges e.src).any (fun e₂ => decide ¬(e₂.dst = c)) = true
      · rw [if_pos hany] at hpe
        exact absurd hpe (List.not_mem_nil p)
      · rw [if_neg hany] at hpe
        rcases List.mem_cons.mp hpe with heq | hrec
        · subst heq
          refine ⟨c, fun e₂ he₂ => ?_⟩
          rw [Bool.not_eq_true, List.any_eq_false] at hany
          have := hany e₂ he₂
          simpa using this
        · exact ih e.src p hrec

/-- Claim C3, amended: a predecessor is pruned by `recurse_predecessors` when all
of its outgoing edges target the single node the walk is currently recursing
from, and every node the walk ever yields has all of its outgoing edges
aimed at one common node — so a node whose outgoing edges split over two
distinct deleted consumers is never pruned. -/
theorem C3_backward_walk (g : Graph) (c : Node) :
    (∀ e ∈ g.edges, e.dst = c → (∀ e₂ ∈ g.out_edges e.src, e₂.dst = c) →
      ∀ n : Nat, e.src ∈ recurse_predecessors g (n + 1) c) ∧
    (∀ fuel p, p ∈ recurse_predecessors g fuel c →
      ∃ d, ∀ e₂ ∈ g.out_edges p, e₂.dst = d) := by
  constructor
  · intro e he hdst hall n
    rw [recurse_predecessors]
    rw [List.mem_flatMap]
    refine ⟨e, ?_, ?_⟩
    · rw [Graph.in_edges, List.mem_filter]
      exact ⟨he, by simp [hdst]⟩
    · have hcond :
          (g.out_edges e.src).any (fun e₂ => decide ¬(e₂.dst = c)) = false := by
        rw [List.any_eq_false]
        intro e₂ he₂
        simp [hall e₂ he₂]
      rw [if_neg (by rw [hcond]; simp)]
      exact List.mem_cons_self _ _
  · exact fun fuel => recurse_sound g fuel c

/-- Counterexample to C3 as stated: in the fan-out graph both of `p`'s
consumers `q1` and `q2` end up in the deletion list, `p` has no other
outgoing edge, yet `p` is not pruned and survives in the returned graph. -/
theorem C3_counterexample :
    the_trimmer envOne wfFanOut none none none =
      .ok (⟨"wf_trimmed", ⟨[nP3], []⟩⟩, ([], [nS3, nQ1, nQ2])) ∧
    (gFanOut.out_edges nP3).all
      (fun e => decide (e.dst ∈ [nS3, nQ1, nQ2])) = true ∧
    (gFanOut.out_edges nP3).length = 2 ∧
    nP3 ∉ [nS3, nQ1, nQ2] :=
  ⟨by rfl, by decide, by decide, by decide⟩

/-- Witness for C3 (amended): in the chain graph, `B` (whose only outgoing
edge targets `C`) is yielded by the walk from `C`. -/
theorem C3_backward_walk_witness : nB ∈ recurse_predecessors gChain 4 nC :=
  (C3_backward_walk gChain nC).1 ⟨nB, nC, [("ob", "ic")]⟩ (by decide) rfl
    (by decide) 3

/-! ## The chain scenario (C5) -/

/-- Counterexample to C5 as stated: on the chain `A -> B -> C -> Sink` with
the sink location cached, the deletions report is `[Sink, B, A]` — the
replaced producer `C` is not part of it. -/
theorem C5_counterexample :
    the_trimmer envOne wfChain none none none =
      .ok (⟨"wf_trimmed", ⟨[], []⟩⟩, ([], [nS, nB, nA])) ∧
    nC ∉ [nS, nB, nA] :=
  ⟨by rfl, by decide⟩

/-- Claim C5, amended: on the chain `A -> B -> C -> Sink` with exactly one file at
the sink's resolved location, the pruned graph is empty and the audit report
lists deletions `[Sink, B, A]`; the replaced producer `C` is removed from the
graph by the rewrite phase without being recorded in the deletions, no
passthrough node is ever created for it (its sole consumer, the sink, is
already gone), and the replacement mapping returned is empty. -/
theorem C5_chain_scenario :
    the_trimmer envOne wfChain none none none =
      .ok (⟨"wf_trimmed", ⟨[], []⟩⟩, ([], [nS, nB, nA])) := by
  rfl

/-! ## Candidate recording during the sink scan (C6) -/

lemma find?_insertPair (l : List (String × String)) (f v : String) :
    (Replacements.insertPair l f v).find? (fun p => p.1 = f) = some (f, v) := by
  rw [Replacements.insertPair]
  by_cases h : l.any (fun p => decide (p.1 = f)) = true
  · rw [if_pos (by exact h)]
    induction l with
    | nil => simp at h
    | cons q l ih =>
        rw [List.map_cons]
        by_cases hq : q.1 = f
        · dsimp only []
          rw [if_pos hq, List.find?_cons_of_pos _ (by simp)]
        · dsimp only []
          rw [if_neg hq, List.find?_cons_of_neg _ (by simp [hq])]
          apply ih
          rcases List.any_eq_true.mp h with ⟨x, hx, hpx⟩
          rcases List.mem_cons.mp hx with rfl | hx'
          · exact absurd (of_decide_eq_true hpx) hq
          · exact List.any_eq_true.mpr ⟨x, hx', hpx⟩
  · rw [if_neg (by exact h)]
    have hf : l.any (fun p => decide (p.1 = f)) = false :=
      Bool.eq_false_iff.mpr h
    rw [List.find?_append,
      List.find?_eq_none.mpr (List.any_eq_false.mp hf)]
    simp

lemma lookupFile_map_update (r : Replacements) (n : Node) (f v : String)
    (h : r.any (fun p => decide (p.1 = n)) = true) :
    Replacements.lookupFile
      (r.map (fun p =>
        if p.1 = n then (p.1, Replacements.insertPair p.2 f v) else p)) n f =
      some v := by
  induction r with
  | nil => simp at h
  | cons q r ih =>
      rw [List.map_cons]
      by_cases hq : q.1 = n
      · dsimp only []
        rw [if_pos hq, Replacements.lookupFile, Replacements.getD,
          List.find?_cons_of_pos _ (by simp [hq])]
        dsimp only []
        rw [find?_insertPair]
        rfl
      · dsimp only []
        rw [if_neg hq, Replacements.lookupFile, Replacements.getD,
          List.find?_cons_of_neg _ (by simp [hq])]
        have h' : r.any (fun p => decide (p.1 = n)) = true := by
          rcases List.any_eq_true.mp h with ⟨x, hx, hpx⟩
          rcases List.mem_cons.mp hx with rfl | hx'
          · exact absurd (of_decide_eq_true hpx) hq
          · exact List.any_eq_true.mpr ⟨x, hx', hpx⟩
        have hrec := ih h'
        rw [Replacements.lookupFile, Replacements.getD] at hrec
        exact hrec

lemma lookupFile_insertField (r : Replacements) (n : Node) (f v : String) :
    (r.insertField n f v).lookupFile n f = some v := by
  rw [Replacements.insertField]
  by_cases h : r.any (fun p => decide (p.1 = n)) = true
  · rw [if_pos (by exact h)]
    exact lookupFile_map_update r n f v h
  · rw [if_neg (by exact h)]
    have hf : r.any (fun p => decide (p.1 = n)) = false :=
      Bool.eq_false_iff.mpr h
    rw [Replacements.lookupFile, Replacements.getD, List.find?_append,
      List.find?_eq_none.mpr (List.any_eq_false.mp hf)]
    simp [Replacements.insertPair]

/-- Claim C6: for a sink, an incoming edge and a field mapping, when the storage
probe at the computed location returns exactly one file the scan records
`(producer, producer_output_field) -> file` in the raw candidate map (and the
recorded file is retrievable), and when it returns zero or several files the
scan leaves the map untouched for that field mapping and moves on. -/
theorem C6_probe_recording (env : Env) (od c : Option String) (ds src : Node)
    (fm : String × String) (rest : List (String × String)) (acc : Replacements)
    (files : List String)
    (h : list_files env (sinkPath ds od c fm.2) none = .ok files) :
    (files.length = 1 →
      scanFields env od c ds src (fm :: rest) acc =
        scanFields env od c ds src rest
          (acc.insertField src fm.1 (files.headD "")) ∧
      (acc.insertField src fm.1 (files.headD "")).lookupFile src fm.1 =
        some (files.headD "")) ∧
    (files.length ≠ 1 →
      scanFields env od c ds src (fm :: rest) acc =
        scanFields env od c ds src rest acc) := by
  constructor
  · intro hlen
    constructor
    · rw [scanFields, h]
      dsimp only []
      rw [if_pos hlen]
    · exact lookupFile_insertField acc src fm.1 (files.headD "")
  · intro hlen
    rw [scanFields, h]
    dsimp only []
    rw [if_neg hlen]

/-- Witness for C6: under `envOne` the first field mapping of the chain
sink's edge finds one file and is recorded for `(C, oc)`. -/
theorem C6_probe_recording_witness :
    scanFields envOne none none nS nC [("oc", "deriv"), ("x", "y")] [] =
      scanFields envOne none none nS nC [("x", "y")]
        (Replacements.insertField [] nC "oc" "file.txt") ∧
    (Replacements.insertField [] nC "oc" "file.txt").lookupFile nC "oc" =
      some "file.txt" :=
  (C6_probe_recording envOne none none nS nC ("oc", "deriv") [("x", "y")] []
    ["file.txt"] rfl).1 (by decide)

/-! ## Storage probe and fault propagation (C7, C8) -/

/-- Claim C7: the storage probe returns an empty listing (without raising) when a
local location matches nothing, it can only fail on the object-storage branch
when the backend refuses access, and a probe fault raised during the sink
scan propagates out of `the_trimmer`, which then returns no pruned graph and
no audit report. -/
theorem C7_probe_errors (env : Env) (path : String) (creds : Option String) :
    (strStartsWith path "s3://" = false →
      list_files env path creds = .ok (env.glob (path ++ "/*"))) ∧
    (∀ e, list_files env path creds = .error e →
      strStartsWith path "s3://" = true ∧
      env.returnBucket creds ((strSplitSlash (strDrop path 5)).headD "") =
        .error e) ∧
    (∀ wf od c creds' e,
      scanSinks env od c wf.graph (execnodes wf.graph) [] = .error e →
      the_trimmer env wf od c creds' = .error e) := by
  refine ⟨?_, ?_, ?_⟩
  · intro h
    simp [list_files, h]
  · intro e he
    simp only [list_files] at he
    by_cases hs : strStartsWith path "s3://" = true
    · refine ⟨hs, ?_⟩
      rw [if_pos hs] at he
      cases hb :
          env.returnBucket creds ((strSplitSlash (strDrop path 5)).headD "")
        with
      | error e' =>
          rw [hb] at he
          dsimp only [] at he
          injection he with he'
          rw [he']
      | ok b =>
          rw [hb] at he
          dsimp only [] at he
          exact absurd he (by simp)
    · rw [if_neg hs] at he
      exact absurd he (by simp)
  · intro wf od c creds' e h
    simp only [the_trimmer] at h ⊢
    rw [h]

/-- Witness for C7: an empty local location lists as `.ok []`, and a fault
from the anonymous S3 listing aborts the whole run with that fault. -/
theorem C7_probe_errors_witness :
    list_files envNone "/nowhere" none = .ok [] ∧
    the_trimmer envS3 wfS3 none none none =
      .error "Unable to locate credentials" :=
  ⟨(C7_probe_errors envNone "/nowhere" none).1 (by decide),
   (C7_probe_errors envS3 "" none).2.2 wfS3 none none none
     "Unable to locate credentials" (by rfl)⟩

/-- Claim C8 fails on the code: line 167 calls
`list_files(path, s3_creds_path=None)` (`# TODO support S3`), so with an
S3-backed sink the scan probes anonymously and faults even though a direct
listing with the caller-supplied credentials succeeds. -/
theorem C8_creds_not_used_for_listing :
    the_trimmer envS3 wfS3 none none (some "/creds.csv") =
      .error "Unable to locate credentials" ∧
    list_files envS3 (sinkPath nS6 none none "deriv") (some "/creds.csv") =
      .ok ["s3://bucket/key.txt"] :=
  ⟨by rfl, by rfl⟩

/-! ## The caller's workflow is never mutated (C9) -/

/-- Claim C9: the run threads the caller's workflow through unchanged — the source
reads `wf` only via `wf._create_flat_graph()` (which flattens an internal
deep copy), `deepcopy` (line 129) and `wf.clone` (line 266) — and the
returned workflow is a fresh, renamed clone, distinct from the input. -/
theorem C9_no_mutation (env : Env) (wf : Workflow) (od c creds : Option String) :
    (the_trimmerTracked env wf od c creds).1 = wf ∧
    ∀ wfNew m d, the_trimmer env wf od c creds = .ok (wfNew, (m, d)) →
      wfNew.name = wf.name ++ "_trimmed" ∧ ¬ (wfNew = wf) := by
  refine ⟨rfl, ?_⟩
  intro wfNew m d h
  simp only [the_trimmer] at h
  cases hs : scanSinks env od c wf.graph (execnodes wf.graph) [] with
  | error e =>
      rw [hs] at h
      exact absurd h (by simp)
  | ok pr =>
      obtain ⟨r₀, d₀⟩ := pr
      rw [hs] at h
      dsimp only [] at h
      cases hv : validateLoop wf.graph r₀ r₀ with
      | error e =>
          rw [hv] at h
          exact absurd h (by simp)
      | ok rv =>
          rw [hv] at h
          dsimp only [] at h
          injection h with h'
          injection h' with h₁ h₂
          have hname : wfNew.name = wf.name ++ "_trimmed" := by rw [← h₁]
          refine ⟨hname, fun heq => ?_⟩
          rw [heq] at hname
          have hlen := congrArg String.length hname
          rw [String.length_append] at hlen
          have h8 : "_trimmed".length = 8 := rfl
          omega

/-- Witness for C9: on the chain run the tracked caller workflow is returned
unchanged and the pruned workflow is a different object. -/
theorem C9_no_mutation_witness :
    (the_trimmerTracked envOne wfChain none none none).1 = wfChain ∧
    ¬ ((⟨"wf_trimmed", ⟨[], []⟩⟩ : Workflow) = wfChain) :=
  ⟨(C9_no_mutation envOne wfChain none none none).1,
   ((C9_no_mutation envOne wfChain none none none).2 ⟨"wf_trimmed", ⟨[], []⟩⟩
     [] [nS, nB, nA] (by rfl)).2⟩

/-! ## The no-op property (C4) -/

lemma scanFields_no_record (env : Env) (od c : Option String) (ds src : Node)
    (fms : List (String × String)) (acc : Replacements)
    (h : ∀ fm ∈ fms, ∃ files,
      list_files env (sinkPath ds od c fm.2) none = .ok files ∧
      files.length ≠ 1) :
    scanFields env od c ds src fms acc = .ok acc := by
  induction fms with
  | nil => rfl
  | cons fm rest ih =>
      obtain ⟨files, hf, hlen⟩ := h fm (List.mem_cons_self fm rest)
      rw [scanFields, hf]
      dsimp only []
      rw [if_neg hlen]
      exact ih (fun fm' hm => h fm' (List.mem_cons_of_mem fm hm))

lemma scanEdges_no_record (env : Env) (od c : Option String) (ds : Node)
    (es : List Edge) (acc : Replacements)
    (h : ∀ e ∈ es, ∀ fm ∈ e.connect, ∃ files,
      list_files env (sinkPath ds od c fm.2) none = .ok files ∧
      files.length ≠ 1) :
    scanEdges env od c ds es acc = .ok acc := by
  induction es with
  | nil => rfl
  | cons e rest ih =>
      rw [scanEdges,
        scanFields_no_record env od c ds e.src e.connect acc
          (h e (List.mem_cons_self e rest))]
      exact ih (fun e' he' => h e' (List.mem_cons_of_mem e he'))

lemma sinkDeletable_empty_false (g : Graph) (ds : Node)
    (hin : g.in_edges ds ≠ []) : sinkDeletable g [] ds = false := by
  rw [sinkDeletable, List.all_eq_false]
  obtain ⟨e, he⟩ := List.exists_mem_of_ne_nil _ hin
  refine ⟨e, he, ?_⟩
  rw [List.any_eq_true]
  rintro ⟨fm, -, hfm⟩
  have : Replacements.hasField [] e.src fm.1 = false := rfl
  rw [this] at hfm
  cases hfm

lemma scanSinks_no_record (env : Env) (od c : Option String) (g : Graph)
    (sinks : List Node)
    (hprobe : ∀ ds ∈ sinks, ∀ e ∈ g.in_edges ds, ∀ fm ∈ e.connect, ∃ files,
      list_files env (sinkPath ds od c fm.2) none = .ok files ∧
      files.length ≠ 1)
    (hin : ∀ ds ∈ sinks, g.in_edges ds ≠ []) :
    scanSinks env od c g sinks [] = .ok ([], []) := by
  induction sinks with
  | nil => rfl
  | cons s rest ih =>
      rw [scanSinks_cons]
      rw [show scanSink env od c g s [] = .ok [] from
        scanEdges_no_record env od c s (g.in_edges s) []
          (hprobe s (List.mem_cons_self s rest))]
      dsimp only []
      rw [ih (fun ds hds => hprobe ds (List.mem_cons_of_mem s hds))
        (fun ds hds => hin ds (List.mem_cons_of_mem s hds))]
      dsimp only []
      rw [if_neg (by
        rw [sinkDeletable_empty_false g s (hin s (List.mem_cons_self s rest))]
        simp)]

/-- Claim C4, amended: for every workflow in which no sink location yields exactly
one file at a probed location (each probe succeeding) and every sink node has
at least one incoming edge, the trimmer returns the graph unchanged with an
empty replacement mapping and an empty deletion list.  The extra incoming-edge
premise is forced by the counterexample: a sink without incoming edges is
deleted unconditionally because the per-edge check is vacuously true. -/
theorem C4_noop (env : Env) (wf : Workflow) (od c creds : Option String)
    (hprobe : ∀ ds ∈ execnodes wf.graph, ∀ e ∈ wf.graph.in_edges ds,
      ∀ fm ∈ e.connect, ∃ files,
        list_files env (sinkPath ds od c fm.2) none = .ok files ∧
        files.length ≠ 1)
    (hin : ∀ ds ∈ execnodes wf.graph, wf.graph.in_edges ds ≠ []) :
    the_trimmer env wf od c creds =
      .ok ({ name := wf.name ++ "_trimmed", graph := wf.graph }, ([], [])) := by
  simp only [the_trimmer]
  rw [scanSinks_no_record env od c wf.graph (execnodes wf.graph) hprobe hin]
  rfl

/-- Counterexample to C4 as stated: with empty storage (no location yields any
file, let alone exactly one), a workflow holding a single datasink with no
incoming edges is still pruned to the empty graph — the sink is deleted
unconditionally — so the output is not isomorphic to the input. -/
theorem C4_counterexample :
    the_trimmer envNone wfLoneSink none none none =
      .ok (⟨"wf_trimmed", ⟨[], []⟩⟩, ([], [nS4])) ∧
    (⟨[], []⟩ : Graph) ≠ gLoneSink :=
  ⟨by rfl, by decide⟩

/-- Witness for C4 (amended): on `A -> S` with empty storage the run returns
the graph unchanged. -/
theorem C4_noop_witness :
    the_trimmer envNone wfNoop none none none =
      .ok (⟨"w_trimmed", gNoop⟩, ([], [])) :=
  C4_noop envNone wfNoop none none none
    (by
      intro ds hds e he fm hfm
      have hds' : ds = nS5 := by
        have h0 : execnodes wfNoop.graph = [nS5] := rfl
        rw [h0] at hds
        exact List.mem_singleton.mp hds
      subst hds'
      have he' : e = ⟨nA5, nS5, [("oa", "deriv")]⟩ := by
        have h1 : wfNoop.graph.in_edges nS5 = [⟨nA5, nS5, [("oa", "deriv")]⟩] :=
          rfl
        rw [h1] at he
        exact List.mem_singleton.mp he
      subst he'
      have hfm' : fm = ("oa", "deriv") := by simpa using hfm
      subst hfm'
      exact ⟨[], rfl, by decide⟩)
    (by
      intro ds hds
      have hds' : ds = nS5 := by
        have h0 : execnodes wfNoop.graph = [nS5] := rfl
        rw [h0] at hds
        exact List.mem_singleton.mp hds
      subst hds'
      decide)

/-! ## Edge-less sinks are deleted unconditionally (C10) -/

/-- A node entirely absent from a graph: not in the node list and not an
endpoint of any edge. -/
def NodeAbsent (g : Graph) (x : Node) : Prop :=
  x ∉ g.nodes ∧ ∀ e ∈ g.edges, ¬ (e.src = x) ∧ ¬ (e.dst = x)

/-- Every mapping value produced by the rewrite phase is a passthrough. -/
def MappingPassthrough (m : List (Node × List (String × Node))) : Prop :=
  ∀ p ∈ m, ∀ q ∈ p.2, q.2.role = Role.passthrough

lemma nodeAbsent_of_subset {g g' : Graph} {x : Node}
    (hn : ∀ n ∈ g'.nodes, n ∈ g.nodes) (he : ∀ e ∈ g'.edges, e ∈ g.edges)
    (h : NodeAbsent g x) : NodeAbsent g' x :=
  ⟨fun hc => h.1 (hn x hc), fun e hee => h.2 e (he e hee)⟩

lemma remove_node_subset_nodes (g : Graph) (d : Node) :
    ∀ n ∈ (g.remove_node d).nodes, n ∈ g.nodes :=
  fun _ hn => (List.mem_filter.mp hn).1

lemma remove_node_subset_edges (g : Graph) (d : Node) :
    ∀ e ∈ (g.remove_node d).edges, e ∈ g.edges :=
  fun _ he => (List.mem_filter.mp he).1

lemma nodeAbsent_remove_self (g : Graph) (x : Node) :
    NodeAbsent (g.remove_node x) x := by
  constructor
  · intro hc
    have hd := (List.mem_filter.mp hc).2
    simp at hd
  · intro e he
    have hd := (List.mem_filter.mp he).2
    simpa using hd

lemma nodeAbsent_foldl_remove_pres (l : List Node) (g : Graph) (x : Node)
    (h : NodeAbsent g x) : NodeAbsent (l.foldl Graph.remove_node g) x := by
  induction l generalizing g with
  | nil => exact h
  | cons d rest ih =>
      exact ih (g.remove_node d)
        (nodeAbsent_of_subset (remove_node_subset_nodes g d)
          (remove_node_subset_edges g d) h)

lemma nodeAbsent_foldl_remove (l : List Node) (g : Graph) (x : Node)
    (hx : x ∈ l) : NodeAbsent (l.foldl Graph.remove_node g) x := by
  induction l generalizing g with
  | nil => cases hx
  | cons d rest ih =>
      rcases List.mem_cons.mp hx with rfl | hx'
      · exact nodeAbsent_foldl_remove_pres rest _ x (nodeAbsent_remove_self g x)
      · exact ih (g.remove_node d) hx'

lemma nodeAbsent_add_node {g : Graph} {x n : Node} (h : NodeAbsent g x)
    (hn : ¬ (n = x)) : NodeAbsent (g.add_node n) x := by
  rw [Graph.add_node]
  by_cases hmem : n ∈ g.nodes
  · rw [if_pos hmem]; exact h
  · rw [if_neg hmem]
    refine ⟨?_, h.2⟩
    intro hc
    rcases List.mem_append.mp hc with hc' | hc'
    · exact h.1 hc'
    · exact hn (List.mem_singleton.mp hc').symm

lemma nodeAbsent_add_edge {g : Graph} {x a b : Node}
    {c : List (String × String)} (h : NodeAbsent g x) (ha : ¬ (a = x))
    (hb : ¬ (b = x)) : NodeAbsent (g.add_edge a b c) x := by
  have h' : NodeAbsent ((g.add_node a).add_node b) x :=
    nodeAbsent_add_node (nodeAbsent_add_node h ha) hb
  simp only [Graph.add_edge]
  by_cases hcond : ((g.add_node a).add_node b).edges.any
      (fun e => decide (e.src = a ∧ e.dst = b)) = true
  · rw [if_pos hcond]
    refine ⟨h'.1, ?_⟩
    intro e' he'
    rw [List.mem_map] at he'
    obtain ⟨e, he, rfl⟩ := he'
    have hee := h'.2 e he
    by_cases hc2 : e.src = a ∧ e.dst = b
    · rw [if_pos hc2]; exact hee
    · rw [if_neg hc2]; exact hee
  · rw [if_neg hcond]
    refine ⟨h'.1, ?_⟩
    intro e' he'
    rcases List.mem_append.mp he' with he'' | he''
    · exact h'.2 e' he''
    · rw [List.mem_singleton] at he''
      subst he''
      exact ⟨ha, hb⟩

lemma mem_eraseDups_loop {α : Type _} [BEq α] :
    ∀ (as bs : List α) (x : α), x ∈ List.eraseDups.loop as bs →
      x ∈ as ∨ x ∈ bs := by
  intro as
  induction as with
  | nil =>
      intro bs x h
      rw [List.eraseDups.loop] at h
      exact Or.inr (List.mem_reverse.mp h)
  | cons a as ih =>
      intro bs x h
      rw [List.eraseDups.loop] at h
      cases he : bs.elem a with
      | true =>
          rw [he] at h
          dsimp only [] at h
          rcases ih bs x h with h' | h'
          · exact Or.inl (List.mem_cons_of_mem a h')
          · exact Or.inr h'
      | false =>
          rw [he] at h
          dsimp only [] at h
          rcases ih (a :: bs) x h with h' | h'
          · exact Or.inl (List.mem_cons_of_mem a h')
          · rcases List.mem_cons.mp h' with rfl | h''
            · exact Or.inl (List.mem_cons_self _ _)
            · exact Or.inr h''

lemma mem_of_mem_eraseDups {α : Type _} [BEq α] {l : List α} {x : α}
    (h : x ∈ l.eraseDups) : x ∈ l := by
  rw [List.eraseDups] at h
  rcases mem_eraseDups_loop l [] x h with h' | h'
  · exact h'
  · cases h'

lemma successors_dst (g : Graph) (n x : Node) (hx : x ∈ g.successors n) :
    ∃ e ∈ g.edges, e.dst = x := by
  rw [Graph.successors] at hx
  have hx' := mem_of_mem_eraseDups hx
  rw [List.mem_map] at hx'
  obtain ⟨e, he, rfl⟩ := hx'
  exact ⟨e, (List.mem_filter.mp he).1, rfl⟩

lemma mappingFind_role {m : List (Node × List (String × Node))} {n : Node}
    {f : String} {v : Node} (hm : MappingPassthrough m)
    (h : mappingFind m n f = some v) : v.role = Role.passthrough := by
  rw [mappingFind] at h
  cases hf : m.find? (fun p => p.1 = n) with
  | none => rw [hf] at h; cases h
  | some p =>
      rw [hf] at h
      try dsimp only [] at h
      cases hg : p.2.find? (fun q => q.1 = f) with
      | none => rw [hg] at h; cases h
      | some q =>
          rw [hg] at h
          try dsimp only [] at h
          injection h with h'
          rw [← h']
          exact hm p (List.mem_of_find?_eq_some hf) q
            (List.mem_of_find?_eq_some hg)

lemma mappingInsert_pass {m : List (Node × List (String × Node))} {n : Node}
    {f : String} {v : Node} (hm : MappingPassthrough m)
    (hv : v.role = Role.passthrough) :
    MappingPassthrough (mappingInsert m n f v) := by
  rw [mappingInsert]
  by_cases h : m.any (fun p => decide (p.1 = n)) = true
  · rw [if_pos (by exact h)]
    intro p hp q hq
    rw [List.mem_map] at hp
    obtain ⟨p₀, hp₀, rfl⟩ := hp
    by_cases hk : p₀.1 = n
    · rw [if_pos hk] at hq
      dsimp only [] at hq
      rcases List.mem_append.mp hq with hq' | hq'
      · exact hm p₀ hp₀ q hq'
      · rw [List.mem_singleton] at hq'
        subst hq'
        exact hv
    · rw [if_neg hk] at hq
      exact hm p₀ hp₀ q hq
  · rw [if_neg (by exact h)]
    intro p hp q hq
    rcases List.mem_append.mp hp with hp' | hp'
    · exact hm p hp' q hq
    · rw [List.mem_singleton] at hp'
      subst hp'
      rw [List.mem_singleton] at hq
      subst hq
      exact hv

lemma foldl_inv {α β : Type _} (P : β → Prop) (l : List α) (op : β → α → β)
    (b : β) (hb : P b) (hl : ∀ b', P b' → ∀ a ∈ l, P (op b' a)) :
    P (l.foldl op b) := by
  induction l generalizing b with
  | nil => exact hb
  | cons a rest ih =>
      exact ih (op b a) (hl b hb a (List.mem_cons_self a rest))
        (fun b' hb' a' ha' => hl b' hb' a' (List.mem_cons_of_mem a ha'))

lemma rewireField_inv {x : Node} (creds : Option String) (rep : Node)
    (cf : List (String × String)) (toNode : Node) (st : RewriteState)
    (fm : String × String) (hrole : x.role = Role.sink)
    (htn : ¬ (toNode = x))
    (h : NodeAbsent st.g x ∧ MappingPassthrough st.mapping) :
    NodeAbsent (rewireField creds rep cf toNode st fm).g x ∧
    MappingPassthrough (rewireField creds rep cf toNode st fm).mapping := by
  simp only [rewireField]
  cases hf : mappingFind st.mapping rep fm.1 with
  | some pn =>
      dsimp only []
      refine ⟨nodeAbsent_add_edge h.1 (fun hc => ?_) htn, h.2⟩
      have hr := mappingFind_role h.2 hf
      rw [hc, hrole] at hr
      cases hr
  | none =>
      dsimp only []
      have hne : ∀ fp : String, ¬ (mkInputNode rep fm.1 fp creds = x) := by
        intro fp hc
        have hr : (mkInputNode rep fm.1 fp creds).role = Role.passthrough := rfl
        rw [hc, hrole] at hr
        cases hr
      exact ⟨nodeAbsent_add_edge (nodeAbsent_add_node h.1 (hne _)) (hne _) htn,
        mappingInsert_pass h.2 rfl⟩

lemma rewriteOne_inv {x : Node} (creds : Option String) (st : RewriteState)
    (entry : Node × List (String × String)) (hrole : x.role = Role.sink)
    (h : NodeAbsent st.g x ∧ MappingPassthrough st.mapping) :
    NodeAbsent (rewriteOne creds st entry).g x ∧
    MappingPassthrough (rewriteOne creds st entry).mapping := by
  have hsucc : ∀ t ∈ st.g.successors entry.1, ¬ (t = x) := by
    intro t ht hc
    obtain ⟨e, he, hdst⟩ := successors_dst st.g entry.1 t ht
    exact (h.1.2 e he).2 (by rw [hdst, hc])
  simp only [rewriteOne]
  by_cases hemp : (st.g.successors entry.1).isEmpty = true
  · rw [if_pos hemp]
    exact ⟨nodeAbsent_of_subset (remove_node_subset_nodes _ _)
      (remove_node_subset_edges _ _) h.1, h.2⟩
  · rw [if_neg hemp]
    have hfold := foldl_inv
      (fun st₄ : RewriteState =>
        NodeAbsent st₄.g x ∧ MappingPassthrough st₄.mapping)
      (st.g.successors entry.1)
      (fun st₂ toNode =>
        (st.g.get_edge_data entry.1 toNode).foldl
          (fun st₃ fm => rewireField creds entry.1 entry.2 toNode st₃ fm) st₂)
      st h
      (fun st₂ hst₂ toNode htn =>
        foldl_inv
          (fun st₄ : RewriteState =>
            NodeAbsent st₄.g x ∧ MappingPassthrough st₄.mapping)
          (st.g.get_edge_data entry.1 toNode)
          (fun st₃ fm => rewireField creds entry.1 entry.2 toNode st₃ fm)
          st₂ hst₂
          (fun st₃ hst₃ fm _ =>
            rewireField_inv creds entry.1 entry.2 toNode st₃ fm hrole
              (hsucc toNode htn) hst₃))
    exact ⟨nodeAbsent_of_subset (remove_node_subset_nodes _ _)
      (remove_node_subset_edges _ _) hfold.1, hfold.2⟩

lemma gcInputNodes_subset (g : Graph) (l : List Node) :
    ∀ n ∈ (gcInputNodes g l).nodes, n ∈ g.nodes := by
  induction l generalizing g with
  | nil => exact fun n hn => hn
  | cons d rest ih =>
      intro n hn
      simp only [gcInputNodes, List.foldl_cons] at hn
      have h2 := ih (if (g.successors d).isEmpty then g.remove_node d else g)
        n hn
      by_cases hemp : (g.successors d).isEmpty = true
      · rw [if_pos hemp] at h2
        exact remove_node_subset_nodes g d n h2
      · rw [if_neg hemp] at h2
        exact h2

lemma mem_execnodes {g : Graph} {ds : Node} (h : ds ∈ execnodes g) :
    ds.role = Role.sink := by
  simp only [execnodes] at h
  exact of_decide_eq_true (List.mem_filter.mp h).2

lemma scanSinks_mem_of_no_in_edges (env : Env) (od c : Option String)
    (g : Graph) (sinks : List Node) (acc rf : Replacements) (dls : List Node)
    (ds : Node) (h : scanSinks env od c g sinks acc = .ok (rf, dls))
    (hds : ds ∈ sinks) (hin : g.in_edges ds = []) : ds ∈ dls := by
  induction sinks generalizing acc rf dls with
  | nil => cases hds
  | cons s rest ih =>
      rw [scanSinks_cons] at h
      cases h1 : scanSink env od c g s acc with
      | error e => rw [h1] at h; exact absurd h (by simp)
      | ok r' =>
          rw [h1] at h
          dsimp only [] at h
          cases h2 : scanSinks env od c g rest r' with
          | error e => rw [h2] at h; exact absurd h (by simp)
          | ok pr =>
              obtain ⟨rf', dels'⟩ := pr
              rw [h2] at h
              dsimp only [] at h
              injection h with h'
              injection h' with h₃ h₄
              rcases List.mem_cons.mp hds with rfl | hds'
              · have hdel : sinkDeletable g r' ds = true := by
                  rw [sinkDeletable, hin]
                  rfl
                rw [← h₄, if_pos hdel]
                exact List.mem_cons_self _ _
              · have hm := ih r' rf' dels' h2 hds'
                rw [← h₄]
                by_cases hdel : sinkDeletable g r' s = true
                · rw [if_pos hdel]
                  exact List.mem_cons_of_mem s hm
                · rw [if_neg hdel]
                  exact hm

/-- Claim C10: a datasink node with no incoming edges is always added to the
deletion list — the per-edge coverage check is vacuously true over an empty
edge set, whatever the storage contains — and it is removed from the graph
the trimmer returns. -/
theorem C10_edgeless_sink_deleted (env : Env) (wf : Workflow)
    (od c creds : Option String) (ds : Node)
    (hds : ds ∈ execnodes wf.graph) (hin : wf.graph.in_edges ds = [])
    (wfNew : Workflow) (m : List (Node × List (String × Node)))
    (dels : List Node)
    (hok : the_trimmer env wf od c creds = .ok (wfNew, (m, dels))) :
    ds ∈ dels ∧ ds ∉ wfNew.graph.nodes := by
  simp only [the_trimmer] at hok
  cases hs : scanSinks env od c wf.graph (execnodes wf.graph) [] with
  | error e => rw [hs] at hok; exact absurd hok (by simp)
  | ok pr =>
      obtain ⟨r₀, d₀⟩ := pr
      rw [hs] at hok
      dsimp only [] at hok
      cases hv : validateLoop wf.graph r₀ r₀ with
      | error e => rw [hv] at hok; exact absurd hok (by simp)
      | ok rv =>
          rw [hv] at hok
          dsimp only [] at hok
          injection hok with h'
          injection h' with h₁ h₂
          injection h₂ with h₂₁ h₂₂
          have hmem : ds ∈ d₀ :=
            scanSinks_mem_of_no_in_edges env od c wf.graph
              (execnodes wf.graph) [] r₀ d₀ ds hs hds hin
          have hdels : ds ∈ d₀ ++ rv.flatMap
              (fun entry =>
                recurse_predecessors wf.graph wf.graph.nodes.length
                  entry.1) :=
            List.mem_append_left _ hmem
          refine ⟨by rw [← h₂₂]; exact hdels, ?_⟩
          rw [← h₁]
          intro hc
          have hrole := mem_execnodes hds
          have hfold := foldl_inv
            (fun st₄ : RewriteState =>
              NodeAbsent st₄.g ds ∧ MappingPassthrough st₄.mapping)
            rv
            (rewriteOne creds)
            ⟨(d₀ ++ rv.flatMap
                (fun entry =>
                  recurse_predecessors wf.graph wf.graph.nodes.length
                    entry.1)).foldl Graph.remove_node wf.graph, [], []⟩
            ⟨nodeAbsent_foldl_remove _ _ _ hdels,
              fun p hp => absurd hp (List.not_mem_nil p)⟩
            (fun st₂ hst₂ entry _ => rewriteOne_inv creds st₂ entry hrole hst₂)
          exact hfold.1.1 (gcInputNodes_subset _ _ ds hc)

/-- Witness for C10: the lone edge-less sink is deleted and gone from the
pruned graph. -/
theorem C10_edgeless_sink_deleted_witness :
    nS4 ∈ [nS4] ∧ nS4 ∉ (⟨[], []⟩ : Graph).nodes :=
  C10_edgeless_sink_deleted envNone wfLoneSink none none none nS4 (by decide)
    rfl ⟨"wf_trimmed", ⟨[], []⟩⟩ [] [nS4] (by rfl)

end Trimmer
